import Mathlib

/-!
Verification of the ingestion-pipeline core of this repository against its
natural-language specification.  The Python sources under
`app/backend/prepdocslib/` are shallowly embedded as executable Lean
definitions; collaborator services (blob store, search index, splitter,
model client, HTTP transport) are represented by explicit behaviour doubles,
exactly at the interface boundary the spec draws for them.
-/

set_option autoImplicit false

namespace AzIngest

/-- Modelled from the spec: the `Page` value type (`page.py` is not part of
the provided sources; §3 of the spec gives it as
`{ index : int, offset : int, text : string }`).  Text is a list of
characters so that the regex-style normalisation of `textparser.py` can be
expressed character by character. -/
structure Page where
  index : Nat
  offset : Nat
  text : List Char
  deriving DecidableEq, Repr

/-- A Python exception value, as far as the embedded code distinguishes
them: a `NameError` carrying the unresolved identifier, or any other
exception carrying a message. -/
inductive PyErr where
  | nameError (name : String)
  | exc (msg : String)
  deriving DecidableEq, Repr

/-! ## planid_extractor.py -/

/-- One piece of the prompt f-string of `extract_plan_id_from_text`:
either a literal fragment or an interpolation `{name}` of a Python
identifier, evaluated in the function's scope. -/
inductive PromptPiece where
  | lit (s : String)
  | var (name : String)

/-- The identifiers that are actually in scope inside
`extract_plan_id_from_text` when the prompt f-string is evaluated: the
function's parameters and the module's globals.  `document_type` and
`locale` are in neither. -/
def planidScopeNames : List String :=
  ["text", "openai_client", "model",
   "logger", "logging", "openai", "Optional", "extract_plan_id_from_text"]

/-- Name lookup in that scope; the parameter `text` is the only binding
whose value the prompt uses. -/
def planidLookup (text : String) (n : String) : Option String :=
  if n = "text" then some text
  else if planidScopeNames.contains n then some "<object>"
  else none

/-- The prompt of `extract_plan_id_from_text` (planid_extractor.py lines
23-37), split into literal fragments and interpolations in source order.
Literal braces of the requested JSON shape are written via `\x7b`/`\x7d`. -/
def promptPieces : List PromptPiece :=
  [ .lit "You are an expert at reading benefit plan documents. ",
    .lit "Extract the Plan Identifier from the following text. ",
    .lit "If no Plan Identifier is found, set the planid in the following return format with only 'None'.\n\n",
    .lit "If a planid is found, set documentype to POC. ",
    .lit "If there is no planid found, set the document_type to A2Z if it is an A to Z document, or SBC if the doc is a Summary of Benefits and Coverage doc. ",
    .lit "If the title of the document starts with 'MN', set the locale to MN, otherwise ignore it.\n\n",
    .lit "Return your answer as a JSON object with the following structure:\n",
    .lit "\x7b\n",
    .lit "  \"planid\": <Plan Identifier or null>,\n",
    .lit "  \"documenttype\": \"", .var "document_type", .lit "\",\n",
    .lit "  \"locale\": \"", .var "locale", .lit "\"\n",
    .lit "\x7d\n\n",
    .lit "Text:\n", .var "text" ]

/-- Left-to-right evaluation of an f-string: the first interpolation whose
name is not in scope raises `NameError`, exactly as CPython does. -/
def evalPieces (text : String) : List PromptPiece → Except PyErr String
  | [] => .ok ""
  | .lit s :: rest => (evalPieces text rest).map (fun t => s ++ t)
  | .var n :: rest =>
    match planidLookup text n with
    | none => .error (.nameError n)
    | some v => (evalPieces text rest).map (fun t => v ++ t)

/-- Building the `prompt` value of `extract_plan_id_from_text`.  This
happens *before* the `try:` block of the function. -/
def buildPrompt (text : String) : Except PyErr String :=
  evalPieces text promptPieces

/-- Behaviour double for the model collaborator
(`openai_client.chat.completions.create` plus the attribute accesses on its
result): it either yields a final message content string (possibly not
valid structured data) or raises some exception. -/
inductive ModelBehavior where
  | responds (content : String)
  | raises (msg : String)

/-- Embedding of `extract_plan_id_from_text` (planid_extractor.py lines
13-52).  The prompt is built first, outside the `try:`; the `try:` block
then calls the model, strips the content, and maps `"none"`/empty to
`None`; `except Exception` degrades any exception from the try block to
`None`. -/
def extract_plan_id_from_text (text : String) (client : ModelBehavior) :
    Except PyErr (Option String) :=
  match buildPrompt text with
  | .error e => .error e
  | .ok _prompt =>
    match client with
    | .raises _ => .ok none
    | .responds content =>
      let planId := content.trim
      if planId.toLower = "none" ∨ planId = "" then .ok none
      else .ok (some planId)

/-! ## mediadescriber.py : the poll primitive -/

/-- The status field of one poll response body, as `poll_api`
distinguishes them: `"Running"`, `"Failed"`, or any other status together
with the rest of the response body. -/
inductive PollStatus where
  | running
  | failed
  | other (body : String)
  deriving DecidableEq, Repr

/-- What `poll_api` does overall: return the final response body, escape
with the explicit `Exception("Failed")`, or escape with tenacity's
`RetryError` once the attempt budget is exhausted while still running. -/
inductive PollResult where
  | success (body : String)
  | failedError
  | retryError
  deriving DecidableEq, Repr

/-- The bounded-retry loop produced by
`@retry(stop=stop_after_attempt(60), wait=wait_fixed(2),
retry=retry_if_exception_type(ValueError))` around `poll`
(mediadescriber.py lines 59-77).  `resp i` is the status of the `i`-th GET
of the poll URL (0-based); the second component counts the GET requests
actually issued.  A `Failed` status raises a plain `Exception`, which
tenacity does not retry; a `Running` status raises `ValueError`, which is
retried while attempts remain; any other status returns the body. -/
def runPoll (resp : Nat → PollStatus) : Nat → Nat → PollResult × Nat
  | _, 0 => (.retryError, 0)
  | i, r + 1 =>
    match resp i with
    | .failed => (.failedError, 1)
    | .other b => (.success b, 1)
    | .running =>
      let p := runPoll resp (i + 1) r
      (p.1, p.2 + 1)

/-- `poll_api` result on a given stream of poll responses. -/
def poll_api (resp : Nat → PollStatus) : PollResult :=
  (runPoll resp 0 60).1

/-- Number of poll attempts `poll_api` consumes on a given stream. -/
def poll_attempts (resp : Nat → PollStatus) : Nat :=
  (runPoll resp 0 60).2

/-! ## mediadescriber.py : create_analyzer -/

/-- Outcome of `create_analyzer` (mediadescriber.py lines 79-110): normal
return, the explicit `Exception("Error creating analyzer", data)`, or the
escape of the poll loop it runs on a 201 response. -/
inductive CreateOutcome where
  | ok
  | fatalError (data : String)
  | pollFailed
  | pollTimeout
  deriving DecidableEq, Repr

/-- Embedding of `create_analyzer`.  `status`/`body` are the PUT
response's status code and text; `resp` is the stream of poll responses
behind the returned `Operation-Location` handle.  The second component
counts poll attempts: a 409 returns at once with no polling, a status
other than 409/201 raises at once with no polling, and a 201 runs
`poll_api` to completion. -/
def create_analyzer (status : Nat) (body : String) (resp : Nat → PollStatus) :
    CreateOutcome × Nat :=
  if status = 409 then (.ok, 0)
  else if status ≠ 201 then (.fatalError body, 0)
  else
    match poll_api resp with
    | .success _ => (.ok, poll_attempts resp)
    | .failedError => (.pollFailed, poll_attempts resp)
    | .retryError => (.pollTimeout, poll_attempts resp)

/-! ## textparser.py -/

/-- The code points of the characters that Python treats as whitespace in
`str.strip()` and that `\s` matches in a Unicode-string regex (the classes
coincide on these): ASCII whitespace, the C1 separators, and the Unicode
space separators. -/
def pythonWhitespaceCodes : List Nat :=
  [0x09, 0x0a, 0x0b, 0x0c, 0x0d, 0x1c, 0x1d, 0x1e, 0x1f, 0x20,
   0x85, 0xa0, 0x1680,
   0x2000, 0x2001, 0x2002, 0x2003, 0x2004, 0x2005, 0x2006, 0x2007,
   0x2008, 0x2009, 0x200a, 0x2028, 0x2029, 0x202f, 0x205f, 0x3000]

/-- Python `str.isspace` / regex `\s` on one character. -/
def py_isspace (c : Char) : Bool :=
  pythonWhitespaceCodes.contains c.toNat

/-- The character class of the regex `\n` (textparser.py line 27). -/
def isNl (c : Char) : Bool := c = '\n'

/-- The character class of the regex `[^\S\n]` (textparser.py line 29):
whitespace that is not a newline. -/
def isNonNlWs (c : Char) : Bool := py_isspace c && !(c = '\n')

/-- `re.sub(cls + "{2,}", repl, ·)` for a single-character class `p` and a
single-character replacement `r`: every maximal run of two or more
`p`-characters is replaced by the one character `r`; runs of length one are
left unchanged.  This is what both substitutions of `cleanup_data` do. -/
def collapseRuns (p : Char → Bool) (r : Char) : List Char → List Char
  | [] => []
  | c :: cs =>
    if p c then
      (if (cs.takeWhile p).isEmpty then [c] else [r]) ++ collapseRuns p r (cs.dropWhile p)
    else
      c :: collapseRuns p r cs
  termination_by l => l.length
  decreasing_by
    · simp_wf
      have := (List.dropWhile_sublist (l := cs) p).length_le
      omega
    · simp_wf

/-- Removing the trailing run of `p`-characters (the right half of Python
`str.strip()`). -/
def rstrip (p : Char → Bool) : List Char → List Char
  | [] => []
  | c :: cs =>
    if (rstrip p cs).isEmpty && p c then [] else c :: rstrip p cs

/-- Python `str.strip()` with no arguments: drop leading and trailing
whitespace. -/
def pyStrip (s : List Char) : List Char :=
  rstrip py_isspace (s.dropWhile py_isspace)

/-- Embedding of `cleanup_data` (textparser.py lines 19-31): collapse runs
of two-or-more newlines to one newline, collapse runs of two-or-more
non-newline whitespace characters to one space, then strip. -/
def cleanup_data (s : List Char) : List Char :=
  pyStrip (collapseRuns isNonNlWs ' ' (collapseRuns isNl '\n' s))

/-- Embedding of `TextParser.parse` (textparser.py lines 37-41) on content
that decoded as UTF-8 (the input is the decoded character sequence): yields
exactly one `Page` with `index = 0`, `offset = 0`. -/
def TextParser_parse (content : List Char) : List Page :=
  [⟨0, 0, cleanup_data content⟩]

/-- Decidable check: no two adjacent characters of the list both satisfy
`p` — i.e. no run of two or more `p`-characters. -/
def noTwoB (p : Char → Bool) : List Char → Bool
  | c1 :: c2 :: rest => !(p c1 && p c2) && noTwoB p (c2 :: rest)
  | _ => true

/-- Decidable check: the first character, if any, does not satisfy `p`. -/
def headNotB (p : Char → Bool) : List Char → Bool
  | [] => true
  | c :: _ => !p c

/-- Decidable check: the last character, if any, does not satisfy `p`. -/
def lastNotB (p : Char → Bool) : List Char → Bool
  | [] => true
  | [c] => !p c
  | _ :: c :: cs => lastNotB p (c :: cs)

/-! ## csvparser.py -/

/-- The line-boundary characters of Python `str.splitlines` (`\r\n` is
additionally treated as a single boundary). -/
def isLineBreak (c : Char) : Bool :=
  [0x0a, 0x0d, 0x0b, 0x0c, 0x1c, 0x1d, 0x1e, 0x85, 0x2028, 0x2029].contains c.toNat

/-- Python `str.splitlines`: accumulate the current line (in reverse) and
emit it at each boundary; `sawCR` records that the previous character was a
`\r`, so that the `\n` of a `\r\n` pair is swallowed rather than emitting
an extra empty line; a trailing boundary does not produce a final empty
line. -/
def splitlinesAux (sawCR : Bool) (acc : List Char) : List Char → List (List Char)
  | [] => if acc.isEmpty then [] else [acc.reverse]
  | c :: rest =>
    if sawCR && c = '\n' then splitlinesAux false acc rest
    else if c = '\r' then acc.reverse :: splitlinesAux true [] rest
    else if isLineBreak c then acc.reverse :: splitlinesAux false [] rest
    else splitlinesAux false (c :: acc) rest

/-- Python `str.splitlines` on a character sequence. -/
def splitlines (s : List Char) : List (List Char) :=
  splitlinesAux false [] s

/-- The states of the C `csv.reader` field machine that are reachable with
the default dialect (delimiter `,`, quotechar `"`, doublequote, non-strict). -/
inductive CsvState where
  | startField
  | inField
  | inQuoted
  | quoteInQuoted

/-- Result of running the `csv.reader` machine over one input line: either
the record ends at this line, or the line ended inside a quoted field and
the record continues on the next line (the reader was handed
`splitlines()` output, so no newline character is re-inserted). -/
inductive CsvLineOut where
  | record (fields : List (List Char))
  | pending (field : List Char) (fields : List (List Char))

/-- One line of the `csv.reader` state machine, default dialect: `,` ends a
field (except inside quotes), `"` opens/closes quoting, `""` inside quotes
is a literal quote, end of line ends the record unless inside a quoted
field. -/
def csvLineRun : CsvState → List Char → List (List Char) → List Char → CsvLineOut
  | st, field, fields, [] =>
    match st with
    | .inQuoted => .pending field fields
    | _ => .record (fields ++ [field])
  | st, field, fields, c :: cs =>
    match st with
    | .startField =>
      if c = ',' then csvLineRun .startField [] (fields ++ [[]]) cs
      else if c = '"' then csvLineRun .inQuoted [] fields cs
      else csvLineRun .inField [c] fields cs
    | .inField =>
      if c = ',' then csvLineRun .startField [] (fields ++ [field]) cs
      else csvLineRun .inField (field ++ [c]) fields cs
    | .inQuoted =>
      if c = '"' then csvLineRun .quoteInQuoted field fields cs
      else csvLineRun .inQuoted (field ++ [c]) fields cs
    | .quoteInQuoted =>
      if c = '"' then csvLineRun .inQuoted (field ++ ['"']) fields cs
      else if c = ',' then csvLineRun .startField [] (fields ++ [field]) cs
      else csvLineRun .inField (field ++ [c]) fields cs

/-- Completing one record, consuming further lines while the machine is
inside a quoted field; at end of input the partial field is saved
(non-strict reader behaviour). -/
def csvRecordAux : CsvState → List Char → List (List Char) → List Char →
    List (List Char) → List (List Char) × List (List Char)
  | st, field, fields, line, lines =>
    match csvLineRun st field fields line with
    | .record r => (r, lines)
    | .pending f fs =>
      match lines with
      | [] => (fs ++ [f], [])
      | l :: ls => csvRecordAux .inQuoted f fs l ls

/-- Produce the next record of `csv.reader` from the remaining lines, with
the lines left over.  A blank line yields the empty record `[]` (as the C
reader does); end of input yields nothing. -/
def parseOneRecord : List (List Char) → Option (List (List Char) × List (List Char))
  | [] => none
  | [] :: rest => some ([], rest)
  | (c :: cs) :: rest => some (csvRecordAux .startField [] [] (c :: cs) rest)

/-- All records of `csv.reader`.  Each record consumes at least one input
line, so `lines.length` steps of fuel always reach the end of input. -/
def csvRowsAux : Nat → List (List Char) → List (List (List Char))
  | 0, _ => []
  | fuel + 1, lines =>
    match parseOneRecord lines with
    | none => []
    | some (r, rest) => r :: csvRowsAux fuel rest

/-- The record stream `csv.reader(content_str.splitlines())`. -/
def csvRows (lines : List (List Char)) : List (List (List Char)) :=
  csvRowsAux lines.length lines

/-- Python `sep.join(pieces)`. -/
def joinSep (sep : List Char) : List (List Char) → List Char
  | [] => []
  | [l] => l
  | l :: l2 :: rest => l ++ sep ++ joinSep sep (l2 :: rest)

/-- Splitting a quote-free line at every comma: the fields `csv.reader`
produces for such a line. -/
def splitComma : List Char → List (List Char)
  | [] => [[]]
  | c :: cs =>
    if c = ',' then [] :: splitComma cs
    else
      match splitComma cs with
      | [] => [[c]]
      | f :: fs => (c :: f) :: fs

/-- The record a single self-contained simple line produces: no fields for
a blank line, the comma-split fields otherwise. -/
def csvRowOf (line : List Char) : List (List Char) :=
  if line.isEmpty then [] else splitComma line

/-- The page loop of `CsvParser.parse` (csvparser.py lines 40-43): one
`Page` per record, `page_text = ",".join(row)`, offset accumulated by
`len(page_text) + 1` per prior row. -/
def csvBuildPages : Nat → Nat → List (List (List Char)) → List Page
  | _, _, [] => []
  | i, off, row :: rest =>
    ⟨i, off, joinSep [','] row⟩ :: csvBuildPages (i + 1) (off + (joinSep [','] row).length + 1) rest

/-- Embedding of `CsvParser.parse` (csvparser.py lines 25-43) on decoded
content: split into lines, read CSV records, skip the first record
(`next(reader, None)`), and emit one `Page` per remaining record. -/
def CsvParser_parse (content : List Char) : List Page :=
  csvBuildPages 0 0 (csvRows (splitlines content)).tail

/-- The claim's expected output, in the spec's words: for data lines
`l₀ … l₍ₙ₋₁₎`, the `i`-th Page has `index = i`, text equal to the row's
fields joined by commas (which for a self-contained simple line is the
line itself), and offset accumulated by `len(text) + 1` per prior row. -/
def expectedCsvPages : Nat → Nat → List (List Char) → List Page
  | _, _, [] => []
  | i, off, line :: rest =>
    ⟨i, off, line⟩ :: expectedCsvPages (i + 1) (off + line.length + 1) rest

/-! ## jsonparser.py -/

/-- A parsed JSON document, the result of `json.loads`.  Numbers are
modelled as integers (float formatting is irrelevant to the page/offset
bookkeeping the claims are about). -/
inductive JsonValue where
  | null
  | bool (b : Bool)
  | int (n : Int)
  | str (s : List Char)
  | arr (elems : List JsonValue)
  | obj (fields : List (List Char × JsonValue))

/-- Lower-case hexadecimal digit. -/
def hexDigit (n : Nat) : Char :=
  if n < 10 then Char.ofNat (48 + n) else Char.ofNat (97 + (n - 10))

/-- A `\uXXXX` escape. -/
def u4 (n : Nat) : List Char :=
  ['\\', 'u', hexDigit (n / 4096 % 16), hexDigit (n / 256 % 16),
   hexDigit (n / 16 % 16), hexDigit (n % 16)]

/-- `json.dumps` escaping of one string character with the default
`ensure_ascii=True`: short escapes for the usual control characters,
`\uXXXX` (with surrogate pairs beyond the BMP) for other characters
outside `0x20..0x7e`. -/
def escapeChar (c : Char) : List Char :=
  if c = '"' then ['\\', '"']
  else if c = '\\' then ['\\', '\\']
  else if c = '\n' then ['\\', 'n']
  else if c = '\t' then ['\\', 't']
  else if c = '\r' then ['\\', 'r']
  else if c.toNat = 8 then ['\\', 'b']
  else if c.toNat = 12 then ['\\', 'f']
  else if c.toNat < 0x20 ∨ c.toNat > 0x7e then
    if c.toNat ≥ 0x10000 then
      u4 (0xd800 + (c.toNat - 0x10000) / 1024) ++ u4 (0xdc00 + (c.toNat - 0x10000) % 1024)
    else u4 c.toNat
  else [c]

/-- `json.dumps` of a string value. -/
def escapeString (s : List Char) : List Char :=
  '"' :: (s.map escapeChar).flatten ++ ['"']

mutual

/-- `json.dumps` with the default separators (`", "` between items,
`": "` after keys).  The object braces are `0x7b`/`0x7d`. -/
def dumps : JsonValue → List Char
  | .null => "null".toList
  | .bool true => "true".toList
  | .bool false => "false".toList
  | .int n => (toString n).toList
  | .str s => escapeString s
  | .arr es => '[' :: joinSep [',', ' '] (dumpsList es) ++ [']']
  | .obj kvs => Char.ofNat 0x7b :: joinSep [',', ' '] (dumpsKVs kvs) ++ [Char.ofNat 0x7d]

/-- `json.dumps` of each array element. -/
def dumpsList : List JsonValue → List (List Char)
  | [] => []
  | v :: vs => dumps v :: dumpsList vs

/-- `json.dumps` of each object entry, `key: value`. -/
def dumpsKVs : List (List Char × JsonValue) → List (List Char)
  | [] => []
  | (k, v) :: rest => (escapeString k ++ ':' :: ' ' :: dumps v) :: dumpsKVs rest
end

/-- The array loop of `JsonParser.parse` (jsonparser.py lines 28-33):
`offset += 1` before each element, then yield `Page(i, offset, text)` and
`offset += len(text)`. -/
def jsonArrPages : Nat → Nat → List JsonValue → List Page
  | _, _, [] => []
  | i, off, e :: rest =>
    ⟨i, off + 1, dumps e⟩ :: jsonArrPages (i + 1) (off + 1 + (dumps e).length) rest

/-- Embedding of `JsonParser.parse` (jsonparser.py lines 25-35) on the
parsed document: a top-level array yields one `Page` per element, a
top-level object yields a single `Page`, and any other top level yields
nothing. -/
def JsonParser_parse : JsonValue → List Page
  | .arr es => jsonArrPages 0 0 es
  | .obj kvs => [⟨0, 0, dumps (.obj kvs)⟩]
  | _ => []

/-! ## filestrategy.py -/

/-- Modelled from the spec: the `Section` value produced for one split
page (`searchmanager.py` is not among the provided sources; §3 of the spec
gives `{ page, content, category?, planid?, … }`).  The split page is an
abstract token of the splitter double; the file reference is implicit in
the per-file processing.  `planid` is the attribute `parse_file` sets when
extraction ran. -/
structure Section where
  splitPage : Nat
  category : Option String
  planid : Option String
  deriving DecidableEq, Repr

/-- Behaviour double for one registered `FileProcessor`: what its parser
yields for a given file content token (or the exception it raises), and
what the splitter makes of the parsed pages (or the exception it
raises). -/
structure ProcModel where
  parse : Nat → Except PyErr (List Page)
  split : List Page → Except PyErr (List Nat)

/-- Behaviour double for one listed file: its extension and content token,
and what the blob-upload, image-embedding and index-update collaborators
do when called for it. -/
structure FileModel where
  ext : String
  content : Nat
  uploadResult : Except PyErr (List String)
  embedResult : Except PyErr (List Nat)
  indexResult : Except PyErr Unit

/-- Python `str.lower()` on an extension (extensions are ASCII, so the
basic-latin lowering of each character is exact). -/
def lowerExt (s : String) : String :=
  String.mk (s.data.map Char.toLower)

/-- Embedding of `parse_file` (filestrategy.py lines 34-72): look up the
processor by the lower-cased extension (skip, returning no sections, if
none is registered), parse into pages, run plan-id extraction only when
the extension is `.pdf`, pages are nonempty, an OpenAI client was supplied
and the first page's text is nonempty, then split and build one `Section`
per split page, attaching `planid` when one was extracted.  Lower-casing
is ASCII (extensions are ASCII).  `planidStep` is the guarded extraction
(filestrategy.py lines 55-63). -/
def planidStep (ext : String) (pages : List Page)
    (openai_client : Option ModelBehavior) : Except PyErr (Option String) :=
  if ext = ".pdf" ∧ pages ≠ [] ∧ openai_client.isSome then
    if (pages.headD ⟨0, 0, []⟩).text ≠ [] then
      match openai_client with
      | some client =>
        extract_plan_id_from_text (String.mk (pages.headD ⟨0, 0, []⟩).text) client
      | none => .ok none
    else .ok none
  else .ok none

/-- Embedding of `parse_file` proper: processor lookup, parse, optional
plan-id extraction, split, and `Section` construction. -/
def parse_file (f : FileModel) (procs : String → Option ProcModel)
    (category : Option String) (openai_client : Option ModelBehavior) :
    Except PyErr (List Section) :=
  match procs (lowerExt f.ext) with
  | none => .ok []
  | some proc =>
    match proc.parse f.content with
    | .error e => .error e
    | .ok pages =>
      match planidStep (lowerExt f.ext) pages openai_client with
      | .error e => .error e
      | .ok planid =>
        match proc.split pages with
        | .error e => .error e
        | .ok sps => .ok (sps.map (fun sp => ⟨sp, category, planid⟩))

/-- One observable call of the orchestrator on its collaborators, tagged
by the position of the file in the listing (for per-file events) or the
path (for removal events). -/
inductive Ev where
  | parseStart (fid : Nat)
  | uploadBlob (fid : Nat)
  | embed (fid : Nat)
  | updateIndex (fid : Nat) (sections : List Section)
  | close (fid : Nat)
  | removeBlob (path : String)
  | removeIndex (path : String)
  | removeAllBlobs
  | removeAllIndex
  deriving DecidableEq, Repr

/-- The `try:` block of one iteration of the Add loop (filestrategy.py
lines 144-155), given the result of `parse_file`: if any sections
resulted, upload the blob, compute image embeddings when configured and
the upload produced URIs, and update the index; the first exception stops
the block.  Returns the collaborator calls made and the escaping
exception, if any. -/
def fileBody (b : Bool) (idx : Nat) (f : FileModel) :
    Except PyErr (List Section) → List Ev × Option PyErr
  | .error e => ([], some e)
  | .ok sections =>
    if sections.isEmpty then ([], none)
    else
      match f.uploadResult with
      | .error e => ([.uploadBlob idx], some e)
      | .ok uris =>
        if b ∧ uris ≠ [] then
          match f.embedResult with
          | .error e => ([.uploadBlob idx, .embed idx], some e)
          | .ok _ =>
            match f.indexResult with
            | .error e => ([.uploadBlob idx, .embed idx, .updateIndex idx sections], some e)
            | .ok _ => ([.uploadBlob idx, .embed idx, .updateIndex idx sections], none)
        else
          match f.indexResult with
          | .error e => ([.uploadBlob idx, .updateIndex idx sections], some e)
          | .ok _ => ([.uploadBlob idx, .updateIndex idx sections], none)

/-- The escaping exception of one Add iteration, independent of the file's
position. -/
def fileErr (b : Bool) (f : FileModel) : Except PyErr (List Section) → Option PyErr
  | .error e => some e
  | .ok sections =>
    if sections.isEmpty then none
    else
      match f.uploadResult with
      | .error e => some e
      | .ok uris =>
        if b ∧ uris ≠ [] then
          match f.embedResult with
          | .error e => some e
          | .ok _ =>
            match f.indexResult with
            | .error e => some e
            | .ok _ => none
        else
          match f.indexResult with
          | .error e => some e
          | .ok _ => none

/-- One full iteration of the Add loop for the file at position `idx`: a
`parseStart` call when a processor is registered, the try-block calls, and
— via the `finally:` (filestrategy.py lines 156-158) — exactly one `close`
of the file's content handle on every path out of the block.
`parse_file` is invoked without an OpenAI client, as in `FileStrategy.run`
(line 146). -/
def fileOutcome (procs : String → Option ProcModel) (category : Option String)
    (b : Bool) (idx : Nat) (f : FileModel) : List Ev × Option PyErr :=
  ((if (procs (lowerExt f.ext)).isSome then [Ev.parseStart idx] else []) ++
      (fileBody b idx f (parse_file f procs category none)).1 ++ [.close idx],
    (fileBody b idx f (parse_file f procs category none)).2)

/-- The Add loop over the listed files: process each file in order; an
escaping exception propagates out of `run`, so later files are never
obtained from the lister. -/
def runAddAux (procs : String → Option ProcModel) (category : Option String)
    (b : Bool) : Nat → List FileModel → List Ev
  | _, [] => []
  | idx, f :: rest =>
    match (fileOutcome procs category b idx f).2 with
    | some _ => (fileOutcome procs category b idx f).1
    | none => (fileOutcome procs category b idx f).1 ++ runAddAux procs category b (idx + 1) rest

/-- How many files the Add loop starts processing: every file up to and
including the first whose iteration escapes with an exception. -/
def startedCount (procs : String → Option ProcModel) (category : Option String)
    (b : Bool) : List FileModel → Nat
  | [] => 0
  | f :: rest =>
    match fileErr b f (parse_file f procs category none) with
    | some _ => 1
    | none => 1 + startedCount procs category b rest

/-- The Remove loop (filestrategy.py lines 159-163): for each listed path,
remove the blob, then remove the index content. -/
def runRemove : List String → List Ev
  | [] => []
  | p :: ps => .removeBlob p :: .removeIndex p :: runRemove ps

/-- Modelled from the spec: `DocumentAction` (`strategy.py` is not among
the provided sources; §3 of the spec gives the closed enumeration
`{ Add, Remove, RemoveAll }`). -/
inductive DocumentAction where
  | add
  | remove
  | removeAll

/-- Embedding of `FileStrategy.run` (filestrategy.py lines 139-166) as the
trace of collaborator calls it makes: Add iterates the listed files,
Remove iterates the listed paths, RemoveAll makes one blob removal and one
index removal call. -/
def FileStrategy_run (procs : String → Option ProcModel) (category : Option String)
    (b : Bool) (action : DocumentAction) (files : List FileModel)
    (paths : List String) : List Ev :=
  match action with
  | .add => runAddAux procs category b 0 files
  | .remove => runRemove paths
  | .removeAll => [.removeAllBlobs, .removeAllIndex]

/-- Is this event a close of the content handle of file `i`? -/
def isCloseOf (i : Nat) (e : Ev) : Bool :=
  match e with
  | .close j => j = i
  | _ => false

/-- Is this event the start of a parse? -/
def isParseEv (e : Ev) : Bool :=
  match e with
  | .parseStart _ => true
  | _ => false

/-- Is this event a blob removal for path `p`? -/
def isRemoveBlobOf (p : String) (e : Ev) : Bool :=
  match e with
  | .removeBlob q => q = p
  | _ => false

/-- Is this event an index removal for path `p`? -/
def isRemoveIndexOf (p : String) (e : Ev) : Bool :=
  match e with
  | .removeIndex q => q = p
  | _ => false

/-! # Theorems -/

/-- Skipping a block of `Running` responses: if the `k` responses starting
at index `i` are all `Running` and at least `k` attempts remain, the loop
moves past them, adding `k` to the attempt count. -/
theorem runPoll_skip_running (resp : Nat → PollStatus) :
    ∀ (k i r : Nat), (∀ j, j < k → resp (i + j) = .running) → k ≤ r →
      runPoll resp i r =
        ((runPoll resp (i + k) (r - k)).1, (runPoll resp (i + k) (r - k)).2 + k) := by
  intro k
  induction k with
  | zero => intro i r _ _; simp
  | succ k ih =>
    intro i r h hk
    match r, hk with
    | r' + 1, _ =>
      have h0 : resp i = .running := by simpa using h 0 (Nat.succ_pos k)
      have hrest : ∀ j, j < k → resp (i + 1 + j) = .running := by
        intro j hj
        have := h (j + 1) (by omega)
        simpa [Nat.add_assoc, Nat.add_comm 1 j] using this
      have hk' : k ≤ r' := by omega
      have hi : i + 1 + k = i + (k + 1) := by omega
      have hr : r' - k = r' + 1 - (k + 1) := by omega
      simp only [runPoll, h0]
      rw [ih (i + 1) r' hrest hk', hi, hr, Nat.add_assoc]

/-- C1: the claim says `extract_plan_id_from_text` returns a null/empty
result instead of propagating an exception, for every input text and every
model-client behaviour.  The code violates this: the prompt f-string
interpolates the names `document_type` and `locale`, which are defined
nowhere in scope, and the prompt is built *before* the `try:` block — so
every call raises `NameError` for `document_type` and never reaches the
defensive `except`.  This theorem evaluates the embedded code: the failure
is unconditional. -/
theorem extract_plan_id_always_raises_nameerror (text : String) (client : ModelBehavior) :
    extract_plan_id_from_text text client = .error (.nameError "document_type") := rfl

/-- C2: the poll primitive on a stream of responses: a `Running` prefix of
`k < 60` followed by a status that is neither `Running` nor `Failed`
returns that final response body after `k+1` attempts; 60 `Running`
statuses exhaust the budget and escape with the retry-budget error, which
is distinguishable from the terminal-failure error; a `Failed` status
after a `Running` prefix raises the terminal error immediately on that
attempt, consuming only `k+1 ≤ 60` attempts. -/
theorem poll_api_spec (resp : Nat → PollStatus) (k : Nat) (b : String) :
    ((∀ i, i < k → resp i = .running) → k < 60 → resp k = .other b →
        poll_api resp = .success b ∧ poll_attempts resp = k + 1)
  ∧ ((∀ i, i < 60 → resp i = .running) →
        poll_api resp = .retryError ∧ poll_attempts resp = 60 ∧
          PollResult.retryError ≠ PollResult.failedError)
  ∧ ((∀ i, i < k → resp i = .running) → k < 60 → resp k = .failed →
        poll_api resp = .failedError ∧ poll_attempts resp = k + 1 ∧ k + 1 ≤ 60) := by
  refine ⟨?_, ?_, ?_⟩
  · intro h hk hb
    have hskip := runPoll_skip_running resp k 0 60 (by simpa using h) (by omega)
    rw [Nat.zero_add, show 60 - k = (59 - k) + 1 by omega] at hskip
    have hstep : runPoll resp k ((59 - k) + 1) = (.success b, 1) := by
      rw [runPoll, hb]
    rw [hstep] at hskip
    exact ⟨by simp [poll_api, hskip], by simp [poll_attempts, hskip, Nat.add_comm]⟩
  · intro h
    have hskip := runPoll_skip_running resp 60 0 60 (by simpa using h) (by omega)
    rw [Nat.zero_add] at hskip
    simp only [Nat.sub_self] at hskip
    rw [show runPoll resp 60 0 = (.retryError, 0) from rfl] at hskip
    exact ⟨by simp [poll_api, hskip], by simp [poll_attempts, hskip], by simp⟩
  · intro h hk hb
    have hskip := runPoll_skip_running resp k 0 60 (by simpa using h) (by omega)
    rw [Nat.zero_add, show 60 - k = (59 - k) + 1 by omega] at hskip
    have hstep : runPoll resp k ((59 - k) + 1) = (.failedError, 1) := by
      rw [runPoll, hb]
    rw [hstep] at hskip
    exact ⟨by simp [poll_api, hskip], by simp [poll_attempts, hskip, Nat.add_comm], by omega⟩

/-- Witness for C2: concrete response streams exercising all three
branches of `poll_api_spec`. -/
theorem poll_api_spec_witness :
    (poll_api (fun i => if i < 2 then .running else .other "done") = .success "done"
      ∧ poll_attempts (fun i => if i < 2 then .running else .other "done") = 3)
  ∧ poll_api (fun _ => .running) = .retryError
  ∧ (poll_api (fun i => if i < 2 then .running else .failed) = .failedError
      ∧ poll_attempts (fun i => if i < 2 then .running else .failed) = 3) := by
  refine ⟨?_, ?_, ?_⟩
  · exact (poll_api_spec (fun i => if i < 2 then .running else .other "done") 2 "done").1
      (by intro i hi; interval_cases i <;> rfl) (by omega) (by rfl)
  · exact ((poll_api_spec (fun _ => .running) 0 "").2.1
      (by intro i _; rfl)).1
  · have := (poll_api_spec (fun i => if i < 2 then .running else .failed) 2 "").2.2
      (by intro i hi; interval_cases i <;> rfl) (by omega) (by rfl)
    exact ⟨this.1, this.2.1⟩

/-- C3: `create_analyzer` on a PUT response: 409 returns successfully with
no polling (and, by construction of the embedded function, no second
creation attempt); any status other than 409 and 201 raises the fatal
creation error; 201 polls the returned handle to completion — the outcome
is `ok` exactly when the poll loop returned a success body, and every poll
attempt the loop makes is accounted for. -/
theorem create_analyzer_spec (status : Nat) (body : String) (resp : Nat → PollStatus) :
    (status = 409 → create_analyzer status body resp = (.ok, 0))
  ∧ (status ≠ 409 → status ≠ 201 → create_analyzer status body resp = (.fatalError body, 0))
  ∧ (status = 201 →
      (create_analyzer status body resp).2 = poll_attempts resp ∧
        ((create_analyzer status body resp).1 = .ok ↔ ∃ b, poll_api resp = .success b)) := by
  refine ⟨?_, ?_, ?_⟩
  · intro h; simp [create_analyzer, h]
  · intro h1 h2; simp [create_analyzer, h1, h2]
  · intro h
    subst h
    cases hp : poll_api resp <;> simp [create_analyzer, hp]

/-- Witness for C3: all three PUT statuses at concrete inputs. -/
theorem create_analyzer_spec_witness :
    create_analyzer 409 "b" (fun _ => PollStatus.running) = (.ok, 0)
  ∧ create_analyzer 500 "oops" (fun _ => PollStatus.running) = (.fatalError "oops", 0)
  ∧ (create_analyzer 201 "b" (fun _ => PollStatus.other "done")).1 = .ok := by
  refine ⟨(create_analyzer_spec 409 "b" _).1 rfl,
    (create_analyzer_spec 500 "oops" _).2.1 (by omega) (by omega),
    ((create_analyzer_spec 201 "b" _).2.2 rfl).2.mpr ⟨"done", rfl⟩⟩

/-- Unfolding `collapseRuns` at a character outside the class. -/
theorem collapseRuns_cons_neg (p : Char → Bool) (r c : Char) (cs : List Char)
    (h : p c = false) :
    collapseRuns p r (c :: cs) = c :: collapseRuns p r cs := by
  rw [collapseRuns]
  simp [h]

/-- Unfolding `collapseRuns` at a character inside the class: the run is
summarised by one character (the original if the run has length one, the
replacement otherwise) and scanning resumes after the run. -/
theorem collapseRuns_cons_pos (p : Char → Bool) (r c : Char) (cs : List Char)
    (h : p c = true) :
    collapseRuns p r (c :: cs) =
      (if (cs.takeWhile p).isEmpty then c else r) :: collapseRuns p r (cs.dropWhile p) := by
  rw [collapseRuns]
  simp only [h, if_true]
  split <;> simp

/-- `noTwoB` only looks at adjacent pairs, so it survives dropping the
head. -/
theorem noTwoB_tail (q : Char → Bool) (c : Char) (cs : List Char)
    (h : noTwoB q (c :: cs) = true) : noTwoB q cs = true := by
  cases cs with
  | nil => rfl
  | cons d ds =>
    rw [noTwoB, Bool.and_eq_true] at h
    exact h.2

/-- Dropping a leading segment preserves the no-adjacent-pair property. -/
theorem noTwoB_dropWhile (p q : Char → Bool) :
    ∀ l, noTwoB q l = true → noTwoB q (l.dropWhile p) = true := by
  intro l
  induction l with
  | nil => intro h; exact h
  | cons c cs ih =>
    intro h
    by_cases hc : p c
    · rw [List.dropWhile_cons_of_pos hc]
      exact ih (noTwoB_tail q c cs h)
    · rw [List.dropWhile_cons_of_neg hc]
      exact h

/-- The head of a `dropWhile p` result never satisfies `p`. -/
theorem dropWhile_head_false (p : Char → Bool) :
    ∀ (l : List Char) (d : Char) (ds : List Char), l.dropWhile p = d :: ds → p d = false := by
  intro l
  induction l with
  | nil => intro d ds h; simp at h
  | cons c cs ih =>
    intro d ds h
    by_cases hc : p c
    · rw [List.dropWhile_cons_of_pos hc] at h
      exact ih d ds h
    · rw [List.dropWhile_cons_of_neg hc] at h
      cases h
      simpa using hc

/-- `rstrip` either erases the whole list or keeps the head. -/
theorem rstrip_shape (p : Char → Bool) (c : Char) (cs : List Char) :
    rstrip p (c :: cs) = [] ∨ rstrip p (c :: cs) = c :: rstrip p cs := by
  rw [rstrip]
  split
  · exact Or.inl rfl
  · exact Or.inr rfl

/-- Removing a trailing segment preserves the no-adjacent-pair property. -/
theorem noTwoB_rstrip (q p : Char → Bool) :
    ∀ l, noTwoB q l = true → noTwoB q (rstrip p l) = true := by
  intro l
  induction l with
  | nil => intro h; exact h
  | cons c cs ih =>
    intro h
    rcases rstrip_shape p c cs with h1 | h1 <;> rw [h1]
    · rfl
    · have htail := ih (noTwoB_tail q c cs h)
      cases cs with
      | nil => rfl
      | cons d ds =>
        rcases rstrip_shape p d ds with h2 | h2 <;> rw [h2]
        · rfl
        · rw [h2] at htail
          rw [noTwoB, Bool.and_eq_true]
          rw [noTwoB, Bool.and_eq_true] at h
          exact ⟨h.1, htail⟩

/-- After `rstrip p`, the last character (if any) is outside the class. -/
theorem lastNotB_rstrip (p : Char → Bool) :
    ∀ l, lastNotB p (rstrip p l) = true := by
  intro l
  induction l with
  | nil => rfl
  | cons c cs ih =>
    rw [rstrip]
    split
    · rfl
    · rename_i hcond
      cases hr : rstrip p cs with
      | nil =>
        have hpc : p c = false := by
          rw [hr] at hcond
          simpa using hcond
        simp [lastNotB, hpc]
      | cons y ys =>
        rw [lastNotB]
        rw [← hr]
        exact ih

/-- `rstrip` does not change the head it keeps, so a clean head stays
clean. -/
theorem headNotB_rstrip (p q : Char → Bool) (l : List Char)
    (h : headNotB q l = true) : headNotB q (rstrip p l) = true := by
  cases l with
  | nil => rfl
  | cons c cs =>
    rcases rstrip_shape p c cs with h1 | h1 <;> rw [h1]
    · rfl
    · exact h

/-- After `dropWhile p`, the head (if any) is outside the class. -/
theorem headNotB_dropWhile (p : Char → Bool) :
    ∀ l : List Char, headNotB p (l.dropWhile p) = true := by
  intro l
  induction l with
  | nil => rfl
  | cons c cs ih =>
    by_cases hc : p c
    · rw [List.dropWhile_cons_of_pos hc]
      exact ih
    · rw [List.dropWhile_cons_of_neg hc]
      have : p c = false := by simpa using hc
      simp [headNotB, this]

/-- Collapsing runs of a class that contains its own replacement character
leaves no two adjacent characters of that class. -/
theorem noTwoB_collapseRuns (p : Char → Bool) (r : Char) :
    ∀ l, noTwoB p (collapseRuns p r l) = true := by
  have H : ∀ (n : Nat) (l : List Char), l.length ≤ n →
      noTwoB p (collapseRuns p r l) = true := by
    intro n
    induction n with
    | zero =>
      intro l hl
      cases l with
      | nil => rw [collapseRuns]; rfl
      | cons c cs => simp at hl
    | succ n ih =>
      intro l hl
      cases l with
      | nil => rw [collapseRuns]; rfl
      | cons c cs =>
        by_cases hc : p c
        · rw [collapseRuns_cons_pos p r c cs hc]
          have hlen : (cs.dropWhile p).length ≤ n := by
            have := (List.dropWhile_sublist (l := cs) p).length_le
            simp at hl
            omega
          have htail := ih (cs.dropWhile p) hlen
          cases hX : collapseRuns p r (cs.dropWhile p) with
          | nil => rfl
          | cons y ys =>
            have hy : p y = false := by
              cases hdw : cs.dropWhile p with
              | nil => rw [hdw] at hX; simp [collapseRuns] at hX
              | cons d ds =>
                have hpd : p d = false := dropWhile_head_false p cs d ds hdw
                rw [hdw, collapseRuns_cons_neg p r d ds hpd] at hX
                cases hX
                exact hpd
            rw [hX] at htail
            rw [noTwoB, Bool.and_eq_true]
            exact ⟨by simp only [hy, Bool.and_false, Bool.not_false], htail⟩
        · have hc' : p c = false := by simpa using hc
          rw [collapseRuns_cons_neg p r c cs hc']
          have htail := ih cs (by simp at hl; omega)
          cases hX : collapseRuns p r cs with
          | nil => rfl
          | cons y ys =>
            rw [hX] at htail
            rw [noTwoB, Bool.and_eq_true]
            exact ⟨by simp only [hc', Bool.false_and, Bool.not_false], htail⟩
  intro l
  exact H l.length l (Nat.le_refl _)

/-- Collapsing runs of class `p` cannot create a new adjacent pair of a
disjoint class `q` whose members `p` excludes, provided the replacement
character is outside `q`: a run is replaced by one character, never erased
outright. -/
theorem noTwoB_collapseRuns_preserve (p q : Char → Bool) (r : Char)
    (hqr : q r = false) (hpq : ∀ c, p c = true → q c = false) :
    ∀ l, noTwoB q l = true → noTwoB q (collapseRuns p r l) = true := by
  have H : ∀ (n : Nat) (l : List Char), l.length ≤ n → noTwoB q l = true →
      noTwoB q (collapseRuns p r l) = true := by
    intro n
    induction n with
    | zero =>
      intro l hl _
      cases l with
      | nil => rw [collapseRuns]; rfl
      | cons c cs => simp at hl
    | succ n ih =>
      intro l hl h
      cases l with
      | nil => rw [collapseRuns]; rfl
      | cons c cs =>
        by_cases hc : p c
        · rw [collapseRuns_cons_pos p r c cs hc]
          have hx : q (if (cs.takeWhile p).isEmpty then c else r) = false := by
            split
            · exact hpq c hc
            · exact hqr
          have hlen : (cs.dropWhile p).length ≤ n := by
            have := (List.dropWhile_sublist (l := cs) p).length_le
            simp at hl
            omega
          have htail := ih (cs.dropWhile p) hlen
            (noTwoB_dropWhile p q cs (noTwoB_tail q c cs h))
          cases hX : collapseRuns p r (cs.dropWhile p) with
          | nil => rfl
          | cons y ys =>
            rw [hX] at htail
            rw [noTwoB, Bool.and_eq_true]
            exact ⟨by simp only [hx, Bool.false_and, Bool.not_false], htail⟩
        · have hc' : p c = false := by simpa using hc
          rw [collapseRuns_cons_neg p r c cs hc']
          have htail := ih cs (by simp at hl; omega) (noTwoB_tail q c cs h)
          cases hX : collapseRuns p r cs with
          | nil => rfl
          | cons y ys =>
            rw [hX] at htail
            have hpair : (!(q c && q y)) = true := by
              cases cs with
              | nil => simp [collapseRuns] at hX
              | cons d ds =>
                by_cases hd : p d
                · rw [collapseRuns_cons_pos p r d ds hd] at hX
                  cases hX
                  split
                  · rw [noTwoB, Bool.and_eq_true] at h
                    exact h.1
                  · simp only [hqr, Bool.and_false, Bool.not_false]
                · have hd' : p d = false := by simpa using hd
                  rw [collapseRuns_cons_neg p r d ds hd'] at hX
                  cases hX
                  rw [noTwoB, Bool.and_eq_true] at h
                  exact h.1
            rw [noTwoB, Bool.and_eq_true]
            exact ⟨hpair, htail⟩
  intro l hl
  exact H l.length l (Nat.le_refl _) hl

/-- C5: for every input that decodes as UTF-8 (given here as the decoded
character sequence), `TextParser.parse` yields exactly one `Page` with
`index = 0` and `offset = 0`, whose text has no run of two-or-more
newlines, no run of two-or-more non-newline whitespace characters, and no
leading or trailing whitespace. -/
theorem TextParser_parse_spec (s : List Char) :
    TextParser_parse s = [⟨0, 0, cleanup_data s⟩]
  ∧ noTwoB isNl (cleanup_data s) = true
  ∧ noTwoB isNonNlWs (cleanup_data s) = true
  ∧ headNotB py_isspace (cleanup_data s) = true
  ∧ lastNotB py_isspace (cleanup_data s) = true := by
  refine ⟨rfl, ?_, ?_, ?_, ?_⟩
  · have h1 := noTwoB_collapseRuns isNl '\n' s
    have h2 := noTwoB_collapseRuns_preserve isNonNlWs isNl ' ' (by decide)
      (fun c hc => by
        simp [isNonNlWs] at hc
        simp [isNl, hc.2])
      (collapseRuns isNl '\n' s) h1
    exact noTwoB_rstrip isNl py_isspace _ (noTwoB_dropWhile py_isspace isNl _ h2)
  · have h2 := noTwoB_collapseRuns isNonNlWs ' ' (collapseRuns isNl '\n' s)
    exact noTwoB_rstrip isNonNlWs py_isspace _ (noTwoB_dropWhile py_isspace isNonNlWs _ h2)
  · exact headNotB_rstrip py_isspace py_isspace _ (headNotB_dropWhile py_isspace _)
  · exact lastNotB_rstrip py_isspace _

/-- A non-boundary character is accumulated into the current line. -/
theorem splitlinesAux_nonbreak (acc : List Char) (c : Char) (rest : List Char)
    (h : isLineBreak c = false) :
    splitlinesAux false acc (c :: rest) = splitlinesAux false (c :: acc) rest := by
  have hcr : ¬(c = '\r') := by
    intro e
    subst e
    exact absurd h (by decide)
  simp [splitlinesAux, hcr, h]

/-- A `\n` (with no pending `\r`) ends the current line. -/
theorem splitlinesAux_newline (acc rest : List Char) :
    splitlinesAux false acc ('\n' :: rest) = acc.reverse :: splitlinesAux false [] rest := by
  rw [splitlinesAux, if_neg (by decide), if_neg (by decide), if_pos (by decide)]

/-- Scanning a boundary-free block just moves it into the accumulator. -/
theorem splitlinesAux_skip_line :
    ∀ (l : List Char), (∀ c ∈ l, isLineBreak c = false) →
      ∀ (acc rest : List Char),
        splitlinesAux false acc (l ++ rest) = splitlinesAux false (l.reverse ++ acc) rest := by
  intro l
  induction l with
  | nil => intro _ acc rest; simp
  | cons c cs ih =>
    intro h acc rest
    have hc : isLineBreak c = false := h c (by simp)
    rw [List.cons_append, splitlinesAux_nonbreak acc c _ hc]
    rw [ih (fun d hd => h d (by simp [hd])) (c :: acc) rest]
    congr 1
    simp

/-- A boundary-free, nonempty remainder is emitted as the final line. -/
theorem splitlinesAux_last (l acc : List Char)
    (hl : ∀ c ∈ l, isLineBreak c = false) (hne : l ≠ []) :
    splitlinesAux false acc l = [acc.reverse ++ l] := by
  have h := splitlinesAux_skip_line l hl acc []
  rw [List.append_nil] at h
  rw [h, splitlinesAux, if_neg (by simp [hne]), List.reverse_append, List.reverse_reverse]

/-- `splitlines` undoes joining boundary-free lines with `\n`, provided the
last line is nonempty (a trailing newline would otherwise be absorbed). -/
theorem splitlines_joinSep :
    ∀ (L : List (List Char)), (∀ l ∈ L, ∀ c ∈ l, isLineBreak c = false) →
      L.getLast? ≠ some [] → L ≠ [] →
      splitlines (joinSep ['\n'] L) = L := by
  intro L
  induction L with
  | nil => intro _ _ h; exact absurd rfl h
  | cons l L' ih =>
    intro hall hlast _
    cases L' with
    | nil =>
      have hne : l ≠ [] := by
        intro e
        subst e
        exact hlast rfl
      rw [show joinSep ['\n'] [l] = l from rfl]
      unfold splitlines
      rw [splitlinesAux_last l [] (hall l (by simp)) hne]
      rfl
    | cons l2 L'' =>
      unfold splitlines
      rw [show joinSep ['\n'] (l :: l2 :: L'') = l ++ ('\n' :: joinSep ['\n'] (l2 :: L''))
        from by rw [joinSep]; simp]
      rw [splitlinesAux_skip_line l (hall l (by simp)) [] _, List.append_nil,
        splitlinesAux_newline, List.reverse_reverse]
      have hih := ih (fun m hm c hc => hall m (by simp [hm]) c hc)
        (by rw [← List.getLast?_cons_cons]; exact hlast) (by simp)
      unfold splitlines at hih
      rw [hih]

/-- `splitComma` always yields at least one field. -/
theorem splitComma_ne_nil : ∀ l : List Char, ∃ f fs, splitComma l = f :: fs := by
  intro l
  induction l with
  | nil => exact ⟨[], [], rfl⟩
  | cons c cs ih =>
    obtain ⟨f, fs, h⟩ := ih
    by_cases hc : c = ','
    · subst hc
      exact ⟨[], splitComma cs, by simp [splitComma]⟩
    · refine ⟨c :: f, fs, ?_⟩
      simp only [splitComma]
      rw [if_neg hc, h]

/-- Joining the comma-split fields with commas restores the line. -/
theorem joinSep_splitComma : ∀ l : List Char, joinSep [','] (splitComma l) = l := by
  intro l
  induction l with
  | nil => rfl
  | cons c cs ih =>
    obtain ⟨f, fs, hsp⟩ := splitComma_ne_nil cs
    rw [hsp] at ih
    by_cases hc : c = ','
    · subst hc
      rw [show splitComma (',' :: cs) = [] :: splitComma cs from by simp [splitComma], hsp]
      rw [joinSep]
      simpa using ih
    · rw [show splitComma (c :: cs) = (c :: f) :: fs from by
        simp only [splitComma]; rw [if_neg hc, hsp]]
      cases fs with
      | nil => simpa [joinSep] using ih
      | cons f2 t =>
        rw [joinSep] at ih ⊢
        simp [ih]

/-- Joining a record's fields with commas restores the line it came from,
blank lines included. -/
theorem joinSep_csvRowOf (l : List Char) : joinSep [','] (csvRowOf l) = l := by
  by_cases h : l.isEmpty
  · rw [csvRowOf, if_pos h]
    rw [List.isEmpty_iff] at h
    simp [h, joinSep]
  · rw [csvRowOf, if_neg h]
    exact joinSep_splitComma l

/-- On a quote-free line the `csv.reader` machine splits at every comma:
from `inField` the current field is completed by the first comma-free
stretch, and from `startField` the whole line contributes
`splitComma line`. -/
theorem csvLineRun_simple :
    ∀ (line : List Char), (∀ c ∈ line, ¬(c = '"')) →
      (∀ (field : List Char) (fields : List (List Char)), ∃ f fs,
          splitComma line = f :: fs ∧
          csvLineRun .inField field fields line = .record (fields ++ (field ++ f) :: fs))
      ∧ (∀ fields : List (List Char),
          csvLineRun .startField [] fields line = .record (fields ++ splitComma line)) := by
  intro line
  induction line with
  | nil =>
    intro _
    constructor
    · intro field fields
      exact ⟨[], [], rfl, by simp [csvLineRun]⟩
    · intro fields
      simp [csvLineRun, splitComma]
  | cons c cs ih =>
    intro hq
    have hc : ¬(c = '"') := hq c (by simp)
    have hq' : ∀ d ∈ cs, ¬(d = '"') := fun d hd => hq d (by simp [hd])
    constructor
    · intro field fields
      by_cases hcc : c = ','
      · subst hcc
        refine ⟨[], splitComma cs, by simp [splitComma], ?_⟩
        rw [show csvLineRun .inField field fields (',' :: cs)
            = csvLineRun .startField [] (fields ++ [field]) cs from by
          simp [csvLineRun]]
        rw [(ih hq').2]
        simp
      · obtain ⟨f, fs, hsp, hrun⟩ := (ih hq').1 (field ++ [c]) fields
        refine ⟨c :: f, fs, ?_, ?_⟩
        · simp only [splitComma]
          rw [if_neg hcc, hsp]
        · rw [show csvLineRun .inField field fields (c :: cs)
              = csvLineRun .inField (field ++ [c]) fields cs from by
            simp only [csvLineRun]; rw [if_neg hcc]]
          rw [hrun]
          simp
    · intro fields
      by_cases hcc : c = ','
      · subst hcc
        rw [show csvLineRun .startField [] fields (',' :: cs)
            = csvLineRun .startField [] (fields ++ [[]]) cs from by
          simp [csvLineRun]]
        rw [(ih hq').2]
        simp [splitComma]
      · obtain ⟨f, fs, hsp, hrun⟩ := (ih hq').1 [c] fields
        rw [show csvLineRun .startField [] fields (c :: cs)
            = csvLineRun .inField [c] fields cs from by
          simp only [csvLineRun]; rw [if_neg hcc, if_neg hc]]
        rw [hrun]
        simp only [splitComma]
        rw [if_neg hcc, hsp]
        simp

/-- On a quote-free line, one `csv.reader` record is exactly that line's
comma-split fields (no fields at all for a blank line), and it consumes
exactly that line. -/
theorem parseOneRecord_simple (line : List Char) (hq : ∀ c ∈ line, ¬(c = '"'))
    (rest : List (List Char)) :
    parseOneRecord (line :: rest) = some (csvRowOf line, rest) := by
  cases line with
  | nil => rfl
  | cons c cs =>
    have h2 := (csvLineRun_simple (c :: cs) hq).2 []
    rw [show parseOneRecord ((c :: cs) :: rest)
        = some (csvRecordAux .startField [] [] (c :: cs) rest) from rfl]
    rw [csvRecordAux, h2]
    simp [csvRowOf]

/-- On quote-free lines the record stream is the line list itself, record
by record, for any sufficient fuel. -/
theorem csvRowsAux_simple :
    ∀ (L : List (List Char)) (n : Nat), L.length ≤ n →
      (∀ l ∈ L, ∀ c ∈ l, ¬(c = '"')) → csvRowsAux n L = L.map csvRowOf := by
  intro L
  induction L with
  | nil =>
    intro n _ _
    cases n <;> rfl
  | cons l L' ih =>
    intro n hn hq
    cases n with
    | zero => simp at hn
    | succ m =>
      rw [csvRowsAux, parseOneRecord_simple l (hq l (by simp)) L']
      show csvRowOf l :: csvRowsAux m L' = List.map csvRowOf (l :: L')
      rw [ih m (by simp at hn; omega) (fun d hd c hc => hq d (by simp [hd]) c hc)]
      rfl

/-- The page loop on the records of self-contained simple lines produces
exactly the claim's expected pages. -/
theorem csvBuildPages_expected :
    ∀ (ls : List (List Char)) (i off : Nat),
      csvBuildPages i off (ls.map csvRowOf) = expectedCsvPages i off ls := by
  intro ls
  induction ls with
  | nil => intro i off; rfl
  | cons l t ih =>
    intro i off
    rw [List.map_cons, csvBuildPages, expectedCsvPages, joinSep_csvRowOf l, ih]

/-- C6 counterexample: the concrete CSV input `h\n"a\nb"` consists of a
header line and two data lines, but the data line `"a` has an unterminated
quoted field, so `csv.reader` joins the two data lines into the single
record `ab` and the parser yields one Page, not the two the claim
requires. -/
theorem CsvParser_claim_counterexample :
    splitlines ['h', '\n', '"', 'a', '\n', 'b', '"'] = [['h'], ['"', 'a'], ['b', '"']]
  ∧ CsvParser_parse ['h', '\n', '"', 'a', '\n', 'b', '"'] = [⟨0, 0, ['a', 'b']⟩]
  ∧ (CsvParser_parse ['h', '\n', '"', 'a', '\n', 'b', '"']).length ≠
      (splitlines ['h', '\n', '"', 'a', '\n', 'b', '"']).length - 1 :=
  ⟨rfl, rfl, by decide⟩

/-- C6 (amended): for a CSV input assembled from a header line and `N`
data lines, where every line is free of quote and line-break characters
(so each line is one self-contained record) and the final line is
nonempty, `CsvParser.parse` yields exactly `N` Pages in order with
`index = 0..N-1`, each Page's text equal to its row's fields joined by
commas — which is the data line itself — the first offset `0` and each
subsequent offset accumulated by `len(text) + 1` per prior row; in
particular an input with only a header line yields zero Pages. -/
theorem CsvParser_parse_amended (header : List Char) (dataLines : List (List Char))
    (hclean : ∀ l ∈ header :: dataLines, ∀ c ∈ l, ¬(c = '"') ∧ isLineBreak c = false)
    (hlast : (header :: dataLines).getLast? ≠ some []) :
    CsvParser_parse (joinSep ['\n'] (header :: dataLines)) = expectedCsvPages 0 0 dataLines := by
  unfold CsvParser_parse
  rw [splitlines_joinSep (header :: dataLines)
    (fun l hl c hc => (hclean l hl c hc).2) hlast (by simp)]
  unfold csvRows
  rw [csvRowsAux_simple (header :: dataLines) _ (Nat.le_refl _)
    (fun l hl c hc => (hclean l hl c hc).1)]
  rw [List.map_cons, List.tail_cons]
  exact csvBuildPages_expected dataLines 0 0

/-- Witness for the amended C6: a header, a two-field row, a blank row and
a one-field row. -/
theorem CsvParser_parse_amended_witness :
    CsvParser_parse (joinSep ['\n'] [['h'], ['a', ',', 'b'], [], ['c']])
      = [⟨0, 0, ['a', ',', 'b']⟩, ⟨1, 4, []⟩, ⟨2, 5, ['c']⟩] := by
  rw [CsvParser_parse_amended ['h'] [['a', ',', 'b'], [], ['c']] (by decide) (by decide)]
  rfl

/-- The array loop yields exactly one page per element. -/
theorem jsonArrPages_length :
    ∀ (es : List JsonValue) (i off : Nat), (jsonArrPages i off es).length = es.length := by
  intro es
  induction es with
  | nil => intro i off; rfl
  | cons e rest ih =>
    intro i off
    rw [jsonArrPages]
    simp [ih]

/-- Closed form of the array loop: the `j`-th page carries index `i0 + j`,
text `dumps` of the `j`-th element, and offset `off + (j+1)` plus the
serialized lengths of the prior elements. -/
theorem jsonArrPages_get :
    ∀ (es : List JsonValue) (j i0 off : Nat) (e : JsonValue), es[j]? = some e →
      (jsonArrPages i0 off es)[j]? =
        some ⟨i0 + j, off + (j + 1) + ((es.take j).map (fun v => (dumps v).length)).sum, dumps e⟩ := by
  intro es
  induction es with
  | nil => intro j i0 off e h; simp at h
  | cons e0 rest ih =>
    intro j i0 off e h
    cases j with
    | zero =>
      simp at h
      subst h
      simp [jsonArrPages]
    | succ j =>
      rw [List.getElem?_cons_succ] at h
      rw [jsonArrPages, List.getElem?_cons_succ,
        ih j (i0 + 1) (off + 1 + (dumps e0).length) e h]
      simp only [List.take_succ_cons, List.map_cons, List.sum_cons, Option.some.injEq,
        Page.mk.injEq]
      refine ⟨by omega, by omega, trivial⟩

/-- C7: for a top-level JSON array of `M` elements, `JsonParser.parse`
yields exactly `M` Pages in element order, the `i`-th Page's text being the
re-serialized `i`-th element and its offset `i + 1` (one per implied
bracket/comma) plus the serialized lengths of the prior elements; for a
top-level object it yields exactly one Page with `index = 0`, `offset = 0`
whose text is the re-serialized object. -/
theorem JsonParser_parse_spec (es : List JsonValue) (kvs : List (List Char × JsonValue)) :
    (JsonParser_parse (.arr es)).length = es.length
  ∧ (∀ (i : Nat) (e : JsonValue), es[i]? = some e →
      (JsonParser_parse (.arr es))[i]? =
        some ⟨i, (i + 1) + ((es.take i).map (fun v => (dumps v).length)).sum, dumps e⟩)
  ∧ JsonParser_parse (.obj kvs) = [⟨0, 0, dumps (.obj kvs)⟩] := by
  refine ⟨jsonArrPages_length es 0 0, ?_, rfl⟩
  intro i e h
  have hg := jsonArrPages_get es i 0 0 e h
  simpa using hg

/-- Witness for C7: a concrete two-element array and a one-entry object. -/
theorem JsonParser_parse_spec_witness :
    (JsonParser_parse (.arr [.int 1, .str ['a']]))[1]? = some ⟨1, 3, dumps (.str ['a'])⟩
  ∧ JsonParser_parse (.obj [(['k'], .null)]) = [⟨0, 0, dumps (.obj [(['k'], .null)])⟩] := by
  constructor
  · exact (JsonParser_parse_spec [.int 1, .str ['a']] []).2.1 1 (.str ['a']) rfl
  · exact (JsonParser_parse_spec [] [(['k'], .null)]).2.2

/-- The try-block emits no `close` events: closing is done only by the
`finally:`. -/
theorem fileBody_no_close (b : Bool) (idx : Nat) (f : FileModel)
    (r : Except PyErr (List Section)) (i : Nat) :
    (fileBody b idx f r).1.countP (isCloseOf i) = 0 := by
  cases r with
  | error e => rfl
  | ok sections =>
    simp only [fileBody]
    repeat' split
    all_goals simp [isCloseOf]

/-- The try-block's escaping exception agrees with `fileErr`. -/
theorem fileBody_err (b : Bool) (idx : Nat) (f : FileModel)
    (r : Except PyErr (List Section)) :
    (fileBody b idx f r).2 = fileErr b f r := by
  cases r with
  | error e => rfl
  | ok sections =>
    simp only [fileBody, fileErr]
    repeat' split
    all_goals rfl

/-- One Add iteration closes the handle of its own file exactly once and
touches no other handle — on every path, success or exception. -/
theorem fileOutcome_closeCount (procs : String → Option ProcModel)
    (category : Option String) (b : Bool) (idx : Nat) (f : FileModel) (i : Nat) :
    (fileOutcome procs category b idx f).1.countP (isCloseOf i) =
      if i = idx then 1 else 0 := by
  simp only [fileOutcome]
  rw [List.countP_append, List.countP_append, fileBody_no_close]
  have hpe : (if (procs (lowerExt f.ext)).isSome then [Ev.parseStart idx] else []).countP
      (isCloseOf i) = 0 := by
    split <;> simp [isCloseOf]
  rw [hpe]
  by_cases hii : i = idx
  · subst hii
    simp [isCloseOf]
  · simp [isCloseOf, hii, Ne.symm hii]

/-- The escaping exception of one Add iteration via `fileErr`. -/
theorem fileOutcome_err (procs : String → Option ProcModel) (category : Option String)
    (b : Bool) (idx : Nat) (f : FileModel) :
    (fileOutcome procs category b idx f).2 =
      fileErr b f (parse_file f procs category none) := by
  simp only [fileOutcome]
  exact fileBody_err b idx f _

/-- Close-counting over the whole Add loop: file positions `idx` up to
`idx + startedCount` are each closed exactly once; no other handle is ever
closed (files after an escaping exception are never obtained). -/
theorem runAddAux_closeCount (procs : String → Option ProcModel)
    (category : Option String) (b : Bool) :
    ∀ (files : List FileModel) (idx i : Nat),
      (runAddAux procs category b idx files).countP (isCloseOf i) =
        if idx ≤ i ∧ i < idx + startedCount procs category b files then 1 else 0 := by
  intro files
  induction files with
  | nil =>
    intro idx i
    rw [if_neg (by simp [startedCount])]
    rfl
  | cons f rest ih =>
    intro idx i
    rw [runAddAux]
    cases herr : fileErr b f (parse_file f procs category none) with
    | some e =>
      have hsc : startedCount procs category b (f :: rest) = 1 := by
        rw [startedCount, herr]
      rw [show (fileOutcome procs category b idx f).2 = some e from by
        rw [fileOutcome_err, herr]]
      rw [fileOutcome_closeCount, hsc]
      by_cases hii : i = idx
      · subst hii
        rw [if_pos rfl, if_pos (by omega)]
      · rw [if_neg hii, if_neg (by omega)]
    | none =>
      have hsc : startedCount procs category b (f :: rest) =
          1 + startedCount procs category b rest := by
        rw [startedCount, herr]
      rw [show (fileOutcome procs category b idx f).2 = none from by
        rw [fileOutcome_err, herr]]
      rw [List.countP_append, fileOutcome_closeCount, ih (idx + 1) i, hsc]
      by_cases h1 : i = idx
      · subst h1
        rw [if_pos rfl, if_neg (by omega), if_pos (by omega)]
      · rw [if_neg h1]
        by_cases h2 : idx + 1 ≤ i ∧ i < idx + 1 + startedCount procs category b rest
        · rw [if_pos h2, if_pos (by omega)]
        · rw [if_neg h2, if_neg (by omega)]

/-- C4: in `FileStrategy.run` with the Add action, every file the loop
starts processing — the first `startedCount` files, which includes the
file whose iteration raises, if any — has its content handle closed
exactly once, whatever the exit path (success, skip for lack of a
processor, or a propagated error); no other close call ever happens, so
no handle leaks and no handle is closed twice. -/
theorem FileStrategy_run_add_close_once (procs : String → Option ProcModel)
    (category : Option String) (b : Bool) (files : List FileModel) (i : Nat) :
    (FileStrategy_run procs category b .add files []).countP (isCloseOf i) =
      if i < startedCount procs category b files then 1 else 0 := by
  show (runAddAux procs category b 0 files).countP (isCloseOf i) = _
  rw [runAddAux_closeCount]
  by_cases h : i < startedCount procs category b files
  · rw [if_pos (by omega), if_pos h]
  · rw [if_neg (by omega), if_neg h]

/-- With no OpenAI client the extraction guard is never satisfied. -/
theorem planidStep_no_client (ext : String) (pages : List Page) :
    planidStep ext pages none = .ok none := by
  rw [planidStep, if_neg (by simp)]

/-- C8: a file whose lower-cased extension has no registered
processor yields zero sections, its Add iteration makes no collaborator
call other than the single close of its handle and raises nothing, and
the loop continues with the remaining files. -/
theorem unregistered_extension_skipped (procs : String → Option ProcModel)
    (category : Option String) (b : Bool) (f : FileModel) (idx : Nat)
    (rest : List FileModel) (h : procs (lowerExt f.ext) = none) :
    parse_file f procs category none = .ok []
  ∧ fileOutcome procs category b idx f = ([.close idx], none)
  ∧ runAddAux procs category b idx (f :: rest)
      = .close idx :: runAddAux procs category b (idx + 1) rest := by
  have hp : parse_file f procs category none = .ok [] := by
    simp only [parse_file, h]
  have hout : fileOutcome procs category b idx f = ([.close idx], none) := by
    simp only [fileOutcome, hp, fileBody, h]
    simp
  refine ⟨hp, hout, ?_⟩
  rw [runAddAux, hout]
  rfl

/-- Witness for C8: a file with extension `.xyz` against an empty
processor table. -/
theorem unregistered_extension_skipped_witness :
    fileOutcome (fun _ => none) none false 3 ⟨".xyz", 0, .ok [], .ok [], .ok ()⟩
      = ([.close 3], none) :=
  (unregistered_extension_skipped (fun _ => none) none false
    ⟨".xyz", 0, .ok [], .ok [], .ok ()⟩ 3 [] rfl).2.1

/-- The Remove loop, record by record. -/
theorem runRemove_eq_flatten (paths : List String) :
    runRemove paths = (paths.map (fun p => [Ev.removeBlob p, Ev.removeIndex p])).flatten := by
  induction paths with
  | nil => rfl
  | cons p ps ih => simp [runRemove, ih]

/-- Per-path call counts of the Remove loop. -/
theorem runRemove_counts (paths : List String) (p : String) :
    (runRemove paths).countP (isRemoveBlobOf p) = paths.count p
  ∧ (runRemove paths).countP (isRemoveIndexOf p) = paths.count p := by
  induction paths with
  | nil => exact ⟨rfl, rfl⟩
  | cons q ps ih =>
    constructor
    · rw [runRemove, List.countP_cons, List.countP_cons, List.count_cons, ih.1]
      simp [isRemoveBlobOf, isRemoveIndexOf]
    · rw [runRemove, List.countP_cons, List.countP_cons, List.count_cons, ih.2]
      simp [isRemoveBlobOf, isRemoveIndexOf]

/-- The Remove loop never parses. -/
theorem runRemove_no_parse (paths : List String) :
    (runRemove paths).countP isParseEv = 0 := by
  induction paths with
  | nil => rfl
  | cons q ps ih => simp [runRemove, List.countP_cons, isParseEv, ih]

/-- C9: in `FileStrategy.run` with the Remove action, the trace is exactly
one blob-remove followed by one index-remove per listed path, in listing
order — so each occurrence of a path gets exactly one blob-remove and one
index-remove call, the blob-remove first — and no parsing occurs. -/
theorem FileStrategy_run_remove_spec (procs : String → Option ProcModel)
    (category : Option String) (b : Bool) (files : List FileModel)
    (paths : List String) :
    FileStrategy_run procs category b .remove files paths =
      (paths.map (fun p => [Ev.removeBlob p, Ev.removeIndex p])).flatten
  ∧ (∀ p : String,
      (FileStrategy_run procs category b .remove files paths).countP (isRemoveBlobOf p)
          = paths.count p
      ∧ (FileStrategy_run procs category b .remove files paths).countP (isRemoveIndexOf p)
          = paths.count p)
  ∧ (FileStrategy_run procs category b .remove files paths).countP isParseEv = 0 :=
  ⟨runRemove_eq_flatten paths, fun p => runRemove_counts paths p, runRemove_no_parse paths⟩

/-- Sections handed to the index under a client-less `parse_file` carry no
plan id. -/
theorem parse_file_no_client_planid (f : FileModel) (procs : String → Option ProcModel)
    (category : Option String) (secs : List Section)
    (h : parse_file f procs category none = .ok secs) :
    ∀ s ∈ secs, s.planid = none := by
  intro s hs
  rw [parse_file] at h
  cases hp : procs (lowerExt f.ext) with
  | none =>
    simp only [hp] at h
    simp at h
    subst h
    simp at hs
  | some proc =>
    simp only [hp] at h
    cases hpr : proc.parse f.content with
    | error e =>
      simp only [hpr] at h
      exact absurd h (by simp)
    | ok pages =>
      simp only [hpr, planidStep_no_client] at h
      cases hsp : proc.split pages with
      | error e =>
        simp only [hsp] at h
        exact absurd h (by simp)
      | ok sps =>
        simp only [hsp, Except.ok.injEq] at h
        subst h
        rw [List.mem_map] at hs
        obtain ⟨sp, _, rfl⟩ := hs
        rfl

/-- An `updateIndex` event of the try block carries the sections that
`parse_file` produced. -/
theorem fileBody_updateIndex (b : Bool) (idx : Nat) (f : FileModel)
    (r : Except PyErr (List Section)) (i : Nat) (secs : List Section)
    (h : Ev.updateIndex i secs ∈ (fileBody b idx f r).1) : r = .ok secs := by
  cases r with
  | error e => simp [fileBody] at h
  | ok sections =>
    simp only [fileBody] at h
    repeat' split at h
    all_goals simp at h
    all_goals rw [h.2]

/-- An `updateIndex` event of one Add iteration carries the sections that
`parse_file` produced for that file. -/
theorem fileOutcome_updateIndex (procs : String → Option ProcModel)
    (category : Option String) (b : Bool) (idx : Nat) (f : FileModel)
    (i : Nat) (secs : List Section)
    (h : Ev.updateIndex i secs ∈ (fileOutcome procs category b idx f).1) :
    parse_file f procs category none = .ok secs := by
  simp only [fileOutcome, List.mem_append] at h
  rcases h with (h | h) | h
  · exfalso
    revert h
    split <;> simp
  · exact fileBody_updateIndex b idx f _ i secs h
  · simp at h

/-- Every event of the Add trace belongs to some iteration. -/
theorem runAddAux_mem (procs : String → Option ProcModel) (category : Option String)
    (b : Bool) :
    ∀ (files : List FileModel) (idx : Nat) (ev : Ev),
      ev ∈ runAddAux procs category b idx files →
      ∃ (j : Nat) (g : FileModel), ev ∈ (fileOutcome procs category b j g).1 := by
  intro files
  induction files with
  | nil =>
    intro idx ev h
    simp [runAddAux] at h
  | cons f rest ih =>
    intro idx ev h
    rw [runAddAux] at h
    cases herr : (fileOutcome procs category b idx f).2 with
    | some e =>
      rw [herr] at h
      exact ⟨idx, f, h⟩
    | none =>
      rw [herr] at h
      simp only [List.mem_append] at h
      rcases h with h | h
      · exact ⟨idx, f, h⟩
      · exact ih (idx + 1) ev h

/-- C10: in `FileStrategy.run` with the Add action, `parse_file` is always
invoked without an OpenAI client, so the plan-id extraction guard is never
satisfied and every `Section` pushed to the index by this path has
`planid = None`. -/
theorem FileStrategy_run_add_planid_none (procs : String → Option ProcModel)
    (category : Option String) (b : Bool) (files : List FileModel)
    (i : Nat) (secs : List Section)
    (h : Ev.updateIndex i secs ∈ FileStrategy_run procs category b .add files [])
    (s : Section) (hs : s ∈ secs) : s.planid = none := by
  obtain ⟨j, g, hg⟩ := runAddAux_mem procs category b files 0 _ h
  exact parse_file_no_client_planid g procs category secs
    (fileOutcome_updateIndex procs category b j g i secs hg) s hs

/-- Witness for C10: a one-file Add run whose index update carries one
section. -/
theorem FileStrategy_run_add_planid_none_witness :
    (⟨7, none, none⟩ : Section).planid = none :=
  FileStrategy_run_add_planid_none
    (fun s => if s = ".txt" then some ⟨fun _ => .ok [⟨0, 0, ['a']⟩], fun _ => .ok [7]⟩
      else none)
    none false [⟨".txt", 0, .ok ["u"], .ok [], .ok ()⟩] 0 [⟨7, none, none⟩]
    (by decide) ⟨7, none, none⟩ (by decide)

end AzIngest
